import Mathlib

/-!
Verification of the centrifugo trust-establishment subsystem.

The development shallowly embeds two Go source units:

* the signature helpers (`generateClientToken` / `checkClientToken`,
  `generateApiSign` / `checkApiSign`, `generateChannelSign` /
  `checkChannelSign`), which compute HMAC-SHA-256 over a sequence of
  field writes and render the digest as lowercase hexadecimal; and
* the node configuration (`Config.Validate`, `Config.channelOpts`,
  `stringInSlice`) from `lib/node/config.go`.

Go strings are opaque byte sequences, embedded as `List Nat` with each
byte reduced modulo 256 where the arithmetic demands it.  The standard
library primitives the source calls (`crypto/sha256`, `crypto/hmac`,
`fmt.Sprintf` with the byte-slice hex verb) are embedded in full as
executable functions, so every claim is settled against the complete
computation the Go code performs.
-/

namespace Centrifugo

/-- Go string: an opaque sequence of bytes (`[]byte(s)` is the identity
on the underlying bytes, so one type serves both `string` and `[]byte`). -/
abbrev GoString := List Nat

/-! ## SHA-256 (`crypto/sha256`), FIPS 180-4, executable -/

/-- Truncation of a machine word to 32 bits. -/
def w32 (n : Nat) : Nat := n % 4294967296

/-- Right rotation of a 32-bit word by `k` bits. -/
def rotr32 (k n : Nat) : Nat := w32 (n / 2 ^ k + n % 2 ^ k * 2 ^ (32 - k))

/-- Bitwise complement on 32-bit words. -/
def bnot32 (n : Nat) : Nat := Nat.xor n 4294967295

/-- Big sigma-0 of the SHA-256 compression function. -/
def bsig0 (x : Nat) : Nat := Nat.xor (Nat.xor (rotr32 2 x) (rotr32 13 x)) (rotr32 22 x)

/-- Big sigma-1 of the SHA-256 compression function. -/
def bsig1 (x : Nat) : Nat := Nat.xor (Nat.xor (rotr32 6 x) (rotr32 11 x)) (rotr32 25 x)

/-- Small sigma-0 of the SHA-256 message schedule. -/
def ssig0 (x : Nat) : Nat := Nat.xor (Nat.xor (rotr32 7 x) (rotr32 18 x)) (x / 2 ^ 3)

/-- Small sigma-1 of the SHA-256 message schedule. -/
def ssig1 (x : Nat) : Nat := Nat.xor (Nat.xor (rotr32 17 x) (rotr32 19 x)) (x / 2 ^ 10)

/-- The 64 SHA-256 round constants of FIPS 180-4 (written in decimal). -/
def sha256K : List Nat :=
  [1116352408, 1899447441, 3049323471, 3921009573, 961987163, 1508970993,
   2453635748, 2870763221, 3624381080, 310598401, 607225278, 1426881987,
   1925078388, 2162078206, 2614888103, 3248222580, 3835390401, 4022224774,
   264347078, 604807628, 770255983, 1249150122, 1555081692, 1996064986,
   2554220882, 2821834349, 2952996808, 3210313671, 3336571891, 3584528711,
   113926993, 338241895, 666307205, 773529912, 1294757372, 1396182291,
   1695183700, 1986661051, 2177026350, 2456956037, 2730485921, 2820302411,
   3259730800, 3345764771, 3516065817, 3600352804, 4094571909, 275423344,
   430227734, 506948616, 659060556, 883997877, 958139571, 1322822218,
   1537002063, 1747873779, 1955562222, 2024104815, 2227730452, 2361852424,
   2428436474, 2756734187, 3204031479, 3329325298]

/-- The eight 32-bit chaining words of the hash state. -/
structure Sha256State where
  h0 : Nat
  h1 : Nat
  h2 : Nat
  h3 : Nat
  h4 : Nat
  h5 : Nat
  h6 : Nat
  h7 : Nat

/-- The SHA-256 initial hash value of FIPS 180-4 (written in decimal). -/
def sha256InitState : Sha256State :=
  ⟨1779033703, 3144134277, 1013904242, 2773480762,
   1359893119, 2600822924, 528734635, 1541459225⟩

/-- Working registers of one compression round. -/
structure Regs where
  a : Nat
  b : Nat
  c : Nat
  d : Nat
  e : Nat
  f : Nat
  g : Nat
  h : Nat

/-- Extends the 16-word block to the 64-word message schedule, appending
`k` further words. -/
def extendSchedule : Nat → List Nat → List Nat
  | 0, ws => ws
  | k + 1, ws =>
      extendSchedule k (ws ++ [w32 (ssig1 (ws.getD (ws.length - 2) 0) + ws.getD (ws.length - 7) 0 +
        ssig0 (ws.getD (ws.length - 15) 0) + ws.getD (ws.length - 16) 0)])

/-- One SHA-256 compression round for round constant and schedule word `kw`. -/
def roundStep (r : Regs) (kw : Nat × Nat) : Regs :=
  let t1 := w32 (r.h + bsig1 r.e + (Nat.xor (Nat.land r.e r.f) (Nat.land (bnot32 r.e) r.g)) +
    kw.1 + kw.2)
  let t2 := w32 (bsig0 r.a +
    (Nat.xor (Nat.xor (Nat.land r.a r.b) (Nat.land r.a r.c)) (Nat.land r.b r.c)))
  ⟨w32 (t1 + t2), r.a, r.b, r.c, w32 (r.d + t1), r.e, r.f, r.g⟩

/-- Compression of one 16-word block into the chaining state. -/
def compressBlock (s : Sha256State) (block : List Nat) : Sha256State :=
  let sch := extendSchedule 48 block
  let r := (sha256K.zip sch).foldl roundStep ⟨s.h0, s.h1, s.h2, s.h3, s.h4, s.h5, s.h6, s.h7⟩
  ⟨w32 (s.h0 + r.a), w32 (s.h1 + r.b), w32 (s.h2 + r.c), w32 (s.h3 + r.d),
   w32 (s.h4 + r.e), w32 (s.h5 + r.f), w32 (s.h6 + r.g), w32 (s.h7 + r.h)⟩

/-- Packs four bytes into one big-endian 32-bit word. -/
def bytesToWord (a b c d : Nat) : Nat :=
  a % 256 * 16777216 + b % 256 * 65536 + c % 256 * 256 + d % 256

/-- Groups a byte sequence into big-endian 32-bit words. -/
def toWords : List Nat → List Nat
  | a :: b :: c :: d :: rest => bytesToWord a b c d :: toWords rest
  | _ => []

/-- Serializes a 32-bit word as four big-endian bytes. -/
def wordBytes (w : Nat) : List Nat :=
  [w / 16777216 % 256, w / 65536 % 256, w / 256 % 256, w % 256]

/-- Serializes the chaining state as the 32-byte digest. -/
def digestBytes (s : Sha256State) : List Nat :=
  wordBytes s.h0 ++ wordBytes s.h1 ++ wordBytes s.h2 ++ wordBytes s.h3 ++
  wordBytes s.h4 ++ wordBytes s.h5 ++ wordBytes s.h6 ++ wordBytes s.h7

/-- The eight-byte big-endian encoding of the message length in bits. -/
def lengthBytes (len : Nat) : List Nat :=
  [8 * len / 2 ^ 56 % 256, 8 * len / 2 ^ 48 % 256, 8 * len / 2 ^ 40 % 256, 8 * len / 2 ^ 32 % 256,
   8 * len / 2 ^ 24 % 256, 8 * len / 2 ^ 16 % 256, 8 * len / 2 ^ 8 % 256, 8 * len % 256]

/-- Merkle-Damgard padding: a 0x80 byte, zeros to 56 mod 64, then the
bit length, so the padded length is a multiple of 64. -/
def padMessage (msg : List Nat) : List Nat :=
  msg ++ 128 :: List.replicate ((119 - msg.length % 64) % 64) 0 ++ lengthBytes msg.length

/-- Splits a byte sequence into chunks of 64 bytes. -/
def chunks64 (l : List Nat) : List (List Nat) :=
  if h : l = [] then [] else l.take 64 :: chunks64 (l.drop 64)
termination_by l.length
decreasing_by
  simp only [List.length_drop]
  have hp : 0 < l.length := List.length_pos.mpr h
  omega

/-- The SHA-256 digest (32 bytes) of a byte sequence. -/
def sha256 (msg : List Nat) : List Nat :=
  digestBytes ((chunks64 (padMessage msg)).foldl (fun s b => compressBlock s (toWords b))
    sha256InitState)

/-! ## HMAC (`crypto/hmac`) over SHA-256 -/

/-- The HMAC key normalized to the 64-byte block size: hashed when longer
than a block, then zero padded. -/
def hmacBlockKey (key : GoString) : GoString :=
  let k := if 64 < key.length then sha256 key else key
  k ++ List.replicate (64 - k.length) 0

/-- HMAC-SHA-256 of a message under a key. -/
def hmacSha256 (key msg : GoString) : GoString :=
  sha256 ((hmacBlockKey key).map (fun b => Nat.xor (b % 256) 92) ++
    sha256 ((hmacBlockKey key).map (fun b => Nat.xor (b % 256) 54) ++ msg))

/-- The state of a Go `hash.Hash` obtained from `hmac.New`: the key and
the stream of bytes written so far.  `Write` never fails and appends its
argument to the stream; `Sum` hashes the accumulated stream. -/
structure HmacState where
  key : GoString
  stream : GoString

/-- Embeds `hmac.New(sha256.New, []byte(secretKey))`. -/
def hmacNew (key : GoString) : HmacState := ⟨key, []⟩

/-- Embeds `h.Write(data)`: appends to the accumulated stream. -/
def HmacState.write (h : HmacState) (data : GoString) : HmacState := ⟨h.key, h.stream ++ data⟩

/-- Embeds `h.Sum(nil)`: the HMAC digest of the accumulated stream. -/
def HmacState.sum (h : HmacState) : GoString := hmacSha256 h.key h.stream

/-! ## Hexadecimal rendering (`fmt.Sprintf` with verb `%02x` on a byte slice) -/

/-- The ASCII code of the lowercase hexadecimal digit for `n < 16`. -/
def hexDigit (n : Nat) : Nat := if n < 10 then 48 + n else 87 + n

/-- The two lowercase hexadecimal digit bytes of one byte. -/
def hexByte (b : Nat) : List Nat := [hexDigit (b % 256 / 16), hexDigit (b % 16)]

/-- Lowercase hexadecimal rendering of a byte slice, two digits per byte. -/
def hexEncode : List Nat → GoString
  | [] => []
  | b :: rest => hexByte b ++ hexEncode rest

/-! ## The signature helpers (`auth.go`) -/

/-- The two bytes of the empty-object JSON literal (`0x7b`, `0x7d`). -/
def emptyObjectLiteral : GoString := [123, 125]

/-- Embeds `generateClientToken`: HMAC keyed by the secret, fed the
project key, user ID, timestamp and info (the empty info is replaced by
the empty-object literal before the final write), rendered as hex. -/
def generateClientToken (secretKey projectKey user timestamp info : GoString) : GoString :=
  let token := hmacNew secretKey
  let token := token.write projectKey
  let token := token.write user
  let token := token.write timestamp
  let info := if info = [] then emptyObjectLiteral else info
  let token := token.write info
  hexEncode token.sum

/-- Embeds `checkClientToken`: regenerates the token and compares. -/
def checkClientToken (secretKey projectKey user timestamp info providedToken : GoString) : Bool :=
  let token := generateClientToken secretKey projectKey user timestamp info
  token == providedToken

/-- Embeds `generateApiSign`: HMAC keyed by the secret, fed the project
key and the encoded request body, rendered as hex. -/
def generateApiSign (secretKey projectKey encodedData : GoString) : GoString :=
  let sign := hmacNew secretKey
  let sign := sign.write projectKey
  let sign := sign.write encodedData
  hexEncode sign.sum

/-- Embeds `checkApiSign`: regenerates the sign and compares. -/
def checkApiSign (secretKey projectKey encodedData providedSign : GoString) : Bool :=
  let sign := generateApiSign secretKey projectKey encodedData
  sign == providedSign

/-- Embeds `generateChannelSign`: HMAC keyed by the secret, fed the
client ID, channel name and channel data, rendered as hex. -/
def generateChannelSign (secretKey client channel channelData : GoString) : GoString :=
  let sign := hmacNew secretKey
  let sign := sign.write client
  let sign := sign.write channel
  let sign := sign.write channelData
  hexEncode sign.sum

/-- Embeds `checkChannelSign`: regenerates the sign and compares. -/
def checkChannelSign (secretKey client channel channelData providedSign : GoString) : Bool :=
  let sign := generateChannelSign secretKey client channel channelData
  sign == providedSign

/-! ## Node configuration (`lib/node/config.go`)

The channel options record (`channel.Options`) is consumed as an opaque
value keyed by namespace name, so the embedding is polymorphic in the
options type; Go's zero value `channel.Options\x7b\x7d` is modelled by
`default`.  The configuration fields not read by `Validate` or
`channelOpts` (node name, secret, tuning parameters) are pass-through
values untouched by the verified operations and are omitted. -/

/-- Embeds `channel.Namespace`: a name with its channel options. -/
structure Namespace (Options : Type) where
  name : GoString
  options : Options

/-- Embeds the parts of `node.Config` the verified operations read: the
embedded default `channel.Options` and the declared namespace list. -/
structure Config (Options : Type) where
  options : Options
  namespaces : List (Namespace Options)

/-- Embeds `stringInSlice`: linear scan for an equal string. -/
def stringInSlice (a : GoString) : List GoString → Bool
  | [] => false
  | b :: rest => if b == a then true else stringInSlice a rest

/-- Membership of a byte in the character class of the namespace name
pattern `[-a-zA-Z0-9_]`: hyphen, lowercase letter, uppercase letter,
digit or underscore. -/
def isNameByte (b : Nat) : Bool :=
  b == 45 || (decide (97 ≤ b) && decide (b ≤ 122)) || (decide (65 ≤ b) && decide (b ≤ 90)) ||
    (decide (48 ≤ b) && decide (b ≤ 57)) || b == 95

/-- Denotation of the constant anchored pattern the source matches with
`regexp.MatchString`: the whole string is two or more characters, every
one from the class `[-a-zA-Z0-9_]`. -/
def matchNamePattern (name : GoString) : Bool :=
  decide (2 ≤ name.length) && name.all isNameByte

/-- The two configuration errors `Validate` builds with `errors.New`:
a shape violation carrying the offending name (message prefix
`config error: wrong namespace name`) and the non-uniqueness message
(`config error: namespace name must be unique`). -/
inductive ConfigError where
  | wrongNamespaceName (name : GoString)
  | duplicateNamespaceName
deriving DecidableEq

/-- The loop body of `Config.Validate`: scans the declared namespaces in
order, accumulating seen names in `nss`. -/
def validateLoop {Options : Type} : List (Namespace Options) → List GoString → Option ConfigError
  | [], _ => none
  | n :: rest, nss =>
    if !matchNamePattern n.name then some (ConfigError.wrongNamespaceName n.name)
    else if stringInSlice n.name nss then some ConfigError.duplicateNamespaceName
    else validateLoop rest (nss ++ [n.name])

/-- Embeds `Config.Validate`: `none` is Go's `nil` error. -/
def Config.Validate {Options : Type} (c : Config Options) : Option ConfigError :=
  validateLoop c.namespaces []

/-- The loop of `Config.channelOpts`: linear scan of the namespace list
for the first entry with the requested name. -/
def channelOptsLoop {Options : Type} [Inhabited Options] (namespaceName : GoString) :
    List (Namespace Options) → Options × Bool
  | [] => (default, false)
  | n :: rest =>
    if n.name == namespaceName then (n.options, true) else channelOptsLoop namespaceName rest

/-- Embeds `Config.channelOpts`: the empty name resolves to the embedded
default options; otherwise the namespace list is scanned linearly. -/
def Config.channelOpts {Options : Type} [Inhabited Options] (c : Config Options)
    (namespaceName : GoString) : Options × Bool :=
  if namespaceName = [] then (c.options, true)
  else channelOptsLoop namespaceName c.namespaces

/-! ## Shape of the rendered digests -/

/-- Bytes that are lowercase hexadecimal digit characters. -/
def isLowerHexByte (b : Nat) : Bool :=
  (decide (48 ≤ b) && decide (b ≤ 57)) || (decide (97 ≤ b) && decide (b ≤ 102))

theorem hexEncode_length (bs : List Nat) : (hexEncode bs).length = 2 * bs.length := by
  induction bs with
  | nil => simp [hexEncode]
  | cons b rest ih =>
    simp only [hexEncode, hexByte, List.length_append, List.length_cons, ih]
    simp; omega

theorem digestBytes_length (s : Sha256State) : (digestBytes s).length = 32 := by
  simp [digestBytes, wordBytes]

theorem sha256_length (msg : List Nat) : (sha256 msg).length = 32 := by
  simp [sha256, digestBytes_length]

theorem hmacSha256_length (key msg : GoString) : (hmacSha256 key msg).length = 32 := by
  simp [hmacSha256, sha256_length]

theorem hexDigit_isLowerHexByte (n : Nat) (h : n < 16) : isLowerHexByte (hexDigit n) = true := by
  simp only [hexDigit, isLowerHexByte]
  rcases Nat.lt_or_ge n 10 with h10 | h10
  · simp only [if_pos h10]
    simp; omega
  · simp only [if_neg (Nat.not_lt.mpr h10)]
    simp; omega

theorem hexEncode_all_hex (bs : List Nat) : (hexEncode bs).all isLowerHexByte = true := by
  induction bs with
  | nil => simp [hexEncode]
  | cons b rest ih =>
    simp only [hexEncode, hexByte, List.all_append, List.all_cons, List.all_nil, ih]
    simp [hexDigit_isLowerHexByte _ (by omega : b % 256 / 16 < 16),
      hexDigit_isLowerHexByte _ (Nat.mod_lt _ (by omega) : b % 16 < 16)]

/-! ## The accumulated stream of each signature -/

theorem generateClientToken_stream (secretKey projectKey user timestamp info : GoString) :
    generateClientToken secretKey projectKey user timestamp info =
      hexEncode (hmacSha256 secretKey
        (projectKey ++ user ++ timestamp ++ (if info = [] then emptyObjectLiteral else info))) := by
  simp [generateClientToken, hmacNew, HmacState.write, HmacState.sum]

theorem generateApiSign_stream (secretKey projectKey encodedData : GoString) :
    generateApiSign secretKey projectKey encodedData =
      hexEncode (hmacSha256 secretKey (projectKey ++ encodedData)) := by
  simp [generateApiSign, hmacNew, HmacState.write, HmacState.sum]

theorem generateChannelSign_stream (secretKey client channel channelData : GoString) :
    generateChannelSign secretKey client channel channelData =
      hexEncode (hmacSha256 secretKey (client ++ channel ++ channelData)) := by
  simp [generateChannelSign, hmacNew, HmacState.write, HmacState.sum]

/-! ## Characterization of `Validate` and `channelOpts` -/

theorem stringInSlice_iff_mem (a : GoString) (l : List GoString) :
    stringInSlice a l = true ↔ a ∈ l := by
  induction l with
  | nil => simp [stringInSlice]
  | cons b rest ih =>
    by_cases hb : b = a
    · subst hb; simp [stringInSlice]
    · have hbeq : (b == a) = false := beq_eq_false_iff_ne.mpr hb
      simp [stringInSlice, hbeq, ih, Ne.symm hb]

theorem validateLoop_none_iff {O : Type} (ns : List (Namespace O)) :
    ∀ seen : List GoString, validateLoop ns seen = none ↔
      ((∀ n ∈ ns, matchNamePattern n.name = true) ∧
       (ns.map Namespace.name).Nodup ∧
       (∀ n ∈ ns, n.name ∉ seen)) := by
  induction ns with
  | nil => intro seen; simp [validateLoop]
  | cons n rest ih =>
    intro seen
    cases hm : matchNamePattern n.name with
    | false =>
      simp only [validateLoop, hm, Bool.not_false, if_true]
      constructor
      · intro h; cases h
      · rintro ⟨hall, -⟩
        exact absurd (hall n (List.mem_cons_self n rest)) (by simp [hm])
    | true =>
      cases hs : stringInSlice n.name seen with
      | true =>
        have hmem : n.name ∈ seen := (stringInSlice_iff_mem _ _).mp hs
        simp only [validateLoop, hm, Bool.not_true, Bool.false_eq_true, if_false, hs, if_true]
        constructor
        · intro h; cases h
        · rintro ⟨-, -, hnotin⟩
          exact absurd hmem (hnotin n (List.mem_cons_self n rest))
      | false =>
        have hnmem : n.name ∉ seen := fun hx => by
          rw [(stringInSlice_iff_mem _ _).mpr hx] at hs; cases hs
        simp only [validateLoop, hm, Bool.not_true, Bool.false_eq_true, if_false, hs,
          ih (seen ++ [n.name])]
        simp only [List.mem_cons, List.map_cons, List.nodup_cons, List.mem_append,
          List.mem_singleton, List.mem_map, List.not_mem_nil, or_false, forall_eq_or_imp, hm,
          true_and]
        constructor
        · rintro ⟨hall, hnd, hdisj⟩
          refine ⟨hall, ⟨?_, hnd⟩, hnmem, fun m hm2 => fun hx => (hdisj m hm2) (Or.inl hx)⟩
          rintro ⟨m, hm2, hname⟩
          exact (hdisj m hm2) (Or.inr hname)
        · rintro ⟨hall, ⟨hnotmap, hnd⟩, -, hdisj⟩
          refine ⟨hall, hnd, fun m hm2 => ?_⟩
          rintro (hx | hx)
          · exact (hdisj m hm2) hx
          · exact hnotmap ⟨m, hm2, hx⟩

theorem validateLoop_some_first {O : Type} (ns : List (Namespace O)) :
    ∀ (seen : List GoString) (e : ConfigError), validateLoop ns seen = some e →
      ∃ pre n post, ns = pre ++ n :: post ∧
        (∀ m ∈ pre, matchNamePattern m.name = true) ∧
        (pre.map Namespace.name).Nodup ∧
        (∀ m ∈ pre, m.name ∉ seen) ∧
        ((matchNamePattern n.name = false ∧ e = ConfigError.wrongNamespaceName n.name) ∨
         (matchNamePattern n.name = true ∧ (n.name ∈ pre.map Namespace.name ∨ n.name ∈ seen) ∧
          e = ConfigError.duplicateNamespaceName)) := by
  induction ns with
  | nil => intro seen e h; simp [validateLoop] at h
  | cons n rest ih =>
    intro seen e h
    cases hm : matchNamePattern n.name with
    | false =>
      simp only [validateLoop, hm, Bool.not_false, if_true, Option.some.injEq] at h
      exact ⟨[], n, rest, rfl, by simp, by simp, by simp, Or.inl ⟨hm, h.symm⟩⟩
    | true =>
      cases hs : stringInSlice n.name seen with
      | true =>
        have hmem : n.name ∈ seen := (stringInSlice_iff_mem _ _).mp hs
        simp only [validateLoop, hm, Bool.not_true, Bool.false_eq_true, if_false, hs, if_true,
          Option.some.injEq] at h
        exact ⟨[], n, rest, rfl, by simp, by simp, by simp,
          Or.inr ⟨hm, Or.inr hmem, h.symm⟩⟩
      | false =>
        have hnmem : n.name ∉ seen := fun hx => by
          rw [(stringInSlice_iff_mem _ _).mpr hx] at hs; cases hs
        simp only [validateLoop, hm, Bool.not_true, Bool.false_eq_true, if_false, hs] at h
        obtain ⟨pre, m, post, hdec, hgood, hnd, hdisj, hv⟩ := ih (seen ++ [n.name]) e h
        have hdisj1 : ∀ x ∈ pre, x.name ∉ seen :=
          fun x hx hs2 => (hdisj x hx) (List.mem_append.mpr (Or.inl hs2))
        have hdisj2 : ∀ x ∈ pre, x.name ≠ n.name := fun x hx he =>
          (hdisj x hx) (List.mem_append.mpr (Or.inr (List.mem_singleton.mpr he)))
        refine ⟨n :: pre, m, post, by rw [hdec]; rfl, ?_, ?_, ?_, ?_⟩
        · intro x hx
          rcases List.mem_cons.mp hx with h1 | h1
          · rw [h1]; exact hm
          · exact hgood x h1
        · simp only [List.map_cons, List.nodup_cons]
          refine ⟨fun hx => ?_, hnd⟩
          obtain ⟨x, hx2, hxname⟩ := List.mem_map.mp hx
          exact (hdisj2 x hx2) hxname
        · intro x hx
          rcases List.mem_cons.mp hx with h1 | h1
          · rw [h1]; exact hnmem
          · exact hdisj1 x h1
        · rcases hv with hv | ⟨h1, h2, h3⟩
          · exact Or.inl hv
          · refine Or.inr ⟨h1, ?_, h3⟩
            rcases h2 with h2 | h2
            · exact Or.inl (by simp only [List.map_cons, List.mem_cons]; exact Or.inr h2)
            · rcases List.mem_append.mp h2 with h2 | h2
              · exact Or.inr h2
              · exact Or.inl (by
                  simp only [List.map_cons, List.mem_cons]
                  exact Or.inl (List.mem_singleton.mp h2))

theorem channelOptsLoop_find {O : Type} [Inhabited O] (name : GoString)
    (l : List (Namespace O)) :
    channelOptsLoop name l =
      match l.find? (fun m => m.name == name) with
      | some n => (n.options, true)
      | none => (default, false) := by
  induction l with
  | nil => simp [channelOptsLoop]
  | cons n rest ih =>
    cases hb : (n.name == name) with
    | true => simp [channelOptsLoop, List.find?, hb]
    | false => simp [channelOptsLoop, List.find?, hb, ih]

theorem channelOptsLoop_append {O : Type} [Inhabited O] (name : GoString)
    (pre : List (Namespace O)) (n : Namespace O) (post : List (Namespace O))
    (hmatch : n.name = name) (hpre : ∀ m ∈ pre, m.name ≠ name) :
    channelOptsLoop name (pre ++ n :: post) = (n.options, true) := by
  induction pre with
  | nil => simp [channelOptsLoop, hmatch]
  | cons p rest ih =>
    have hp : (p.name == name) = false :=
      beq_eq_false_iff_ne.mpr (hpre p (List.mem_cons_self p rest))
    simp only [List.cons_append, channelOptsLoop, hp, Bool.false_eq_true, if_false]
    exact ih (fun m hm => hpre m (List.mem_cons_of_mem p hm))

/-! ## The claims -/

/-- Claim C1: verifying a freshly generated signature of the same domain
with the same fields succeeds, for all three generate/verify pairs. -/
theorem claim1_roundtrip_verify_generate :
    (∀ secretKey projectKey user timestamp info : GoString,
      checkClientToken secretKey projectKey user timestamp info
        (generateClientToken secretKey projectKey user timestamp info) = true) ∧
    (∀ secretKey projectKey encodedData : GoString,
      checkApiSign secretKey projectKey encodedData
        (generateApiSign secretKey projectKey encodedData) = true) ∧
    (∀ secretKey client channel channelData : GoString,
      checkChannelSign secretKey client channel channelData
        (generateChannelSign secretKey client channel channelData) = true) := by
  refine ⟨fun _ _ _ _ _ => ?_, fun _ _ _ => ?_, fun _ _ _ _ => ?_⟩ <;>
    simp [checkClientToken, checkApiSign, checkChannelSign]

/-- Claim C2: each verify function returns `true` exactly when the
candidate equals the freshly generated signature for those fields
byte-for-byte, and `false` otherwise; the functions are total, so no
input makes them fail. -/
theorem claim2_verify_iff_byte_equal :
    (∀ secretKey projectKey user timestamp info candidate : GoString,
      checkClientToken secretKey projectKey user timestamp info candidate = true ↔
        candidate = generateClientToken secretKey projectKey user timestamp info) ∧
    (∀ secretKey projectKey encodedData candidate : GoString,
      checkApiSign secretKey projectKey encodedData candidate = true ↔
        candidate = generateApiSign secretKey projectKey encodedData) ∧
    (∀ secretKey client channel channelData candidate : GoString,
      checkChannelSign secretKey client channel channelData candidate = true ↔
        candidate = generateChannelSign secretKey client channel channelData) := by
  refine ⟨fun _ _ _ _ _ _ => ?_, fun _ _ _ _ => ?_, fun _ _ _ _ _ => ?_⟩ <;>
    · simp [checkClientToken, checkApiSign, checkChannelSign]
      exact eq_comm

/-- Claim C5: generating a connection token with the empty info string
yields exactly the token generated with the empty-object literal. -/
theorem claim5_empty_info_normalizes
    (secretKey projectKey user timestamp : GoString) :
    generateClientToken secretKey projectKey user timestamp [] =
      generateClientToken secretKey projectKey user timestamp emptyObjectLiteral := rfl

/-- Claim C9: verification normalizes empty connection info the same way
generation does: verifying with empty info gives the same boolean as
verifying with the empty-object literal, and a token minted with the
literal verifies when the verifier is handed the empty info string. -/
theorem claim9_verify_normalizes_empty_info
    (secretKey projectKey user timestamp candidate : GoString) :
    checkClientToken secretKey projectKey user timestamp [] candidate =
      checkClientToken secretKey projectKey user timestamp emptyObjectLiteral candidate ∧
    checkClientToken secretKey projectKey user timestamp []
      (generateClientToken secretKey projectKey user timestamp emptyObjectLiteral) = true := by
  have hgen : generateClientToken secretKey projectKey user timestamp [] =
      generateClientToken secretKey projectKey user timestamp emptyObjectLiteral := rfl
  exact ⟨rfl, by simp [checkClientToken, hgen]⟩

/-- Claim C6 (counterexample): two tuples of API-sign fields that differ
in a field but share their concatenation feed the keyed hash the very
same byte stream and receive the same signature, so discrete writes do
not prevent ambiguity collisions. -/
theorem claim6_counterexample :
    (([97, 98], [99]) ≠ (([97], [98, 99]) : GoString × GoString)) ∧
    ((hmacNew []).write [97, 98] |>.write [99]).stream =
      ((hmacNew []).write [97] |>.write [98, 99]).stream ∧
    generateApiSign [] [97, 98] [99] = generateApiSign [] [97] [98, 99] := by
  refine ⟨by decide, by decide, ?_⟩
  rw [generateApiSign_stream, generateApiSign_stream]
  rfl

/-- Claim C6 (amended): writing each field as a discrete update to the
keyed-hash accumulator feeds it the plain concatenation of the fields,
so two tuples of domain fields produce the same byte stream, and hence
the same signature, exactly when their concatenations coincide; distinct
tuples with equal concatenation collide. -/
theorem claim6_stream_is_concatenation :
    (∀ secretKey projectKey encodedData : GoString,
      ((hmacNew secretKey).write projectKey |>.write encodedData).stream =
        projectKey ++ encodedData) ∧
    (∀ secretKey client channel channelData : GoString,
      ((hmacNew secretKey).write client |>.write channel |>.write channelData).stream =
        client ++ channel ++ channelData) ∧
    (∀ secretKey projectKey encodedData projectKey2 encodedData2 : GoString,
      projectKey ++ encodedData = projectKey2 ++ encodedData2 →
        generateApiSign secretKey projectKey encodedData =
          generateApiSign secretKey projectKey2 encodedData2) ∧
    (∀ secretKey client channel channelData client2 channel2 channelData2 : GoString,
      client ++ channel ++ channelData = client2 ++ channel2 ++ channelData2 →
        generateChannelSign secretKey client channel channelData =
          generateChannelSign secretKey client2 channel2 channelData2) := by
  refine ⟨fun _ _ _ => by simp [hmacNew, HmacState.write],
    fun _ _ _ _ => by simp [hmacNew, HmacState.write, List.append_assoc],
    fun s a b a2 b2 h => ?_, fun s a b c a2 b2 c2 h => ?_⟩
  · rw [generateApiSign_stream, generateApiSign_stream, h]
  · rw [generateChannelSign_stream, generateChannelSign_stream, h]

/-- Claim C7: every generated signature is a lowercase hexadecimal
string of 64 characters, two per byte of the 32-byte digest. -/
theorem claim7_hex_output_shape :
    (∀ secretKey projectKey user timestamp info : GoString,
      (generateClientToken secretKey projectKey user timestamp info).length = 64 ∧
      (generateClientToken secretKey projectKey user timestamp info).all isLowerHexByte = true) ∧
    (∀ secretKey projectKey encodedData : GoString,
      (generateApiSign secretKey projectKey encodedData).length = 64 ∧
      (generateApiSign secretKey projectKey encodedData).all isLowerHexByte = true) ∧
    (∀ secretKey client channel channelData : GoString,
      (generateChannelSign secretKey client channel channelData).length = 64 ∧
      (generateChannelSign secretKey client channel channelData).all isLowerHexByte = true) := by
  refine ⟨fun s a b c d => ?_, fun s a b => ?_, fun s a b c => ?_⟩
  · rw [generateClientToken_stream]
    exact ⟨by rw [hexEncode_length, hmacSha256_length], hexEncode_all_hex _⟩
  · rw [generateApiSign_stream]
    exact ⟨by rw [hexEncode_length, hmacSha256_length], hexEncode_all_hex _⟩
  · rw [generateChannelSign_stream]
    exact ⟨by rw [hexEncode_length, hmacSha256_length], hexEncode_all_hex _⟩

/-- Claim C3: `Validate` returns ok exactly when every declared
namespace name matches the anchored pattern and no name repeats;
otherwise it reports the first violation in input order, naming the
offending value for a shape violation and signaling non-uniqueness for a
repeated name. -/
theorem claim3_validate_characterization {O : Type} (c : Config O) :
    (c.Validate = none ↔
      (∀ n ∈ c.namespaces, matchNamePattern n.name = true) ∧
      (c.namespaces.map Namespace.name).Nodup) ∧
    (∀ e, c.Validate = some e →
      ∃ pre n post, c.namespaces = pre ++ n :: post ∧
        (∀ m ∈ pre, matchNamePattern m.name = true) ∧
        (pre.map Namespace.name).Nodup ∧
        ((matchNamePattern n.name = false ∧ e = ConfigError.wrongNamespaceName n.name) ∨
         (matchNamePattern n.name = true ∧ n.name ∈ pre.map Namespace.name ∧
          e = ConfigError.duplicateNamespaceName))) := by
  constructor
  · rw [Config.Validate, validateLoop_none_iff]
    simp
  · intro e he
    obtain ⟨pre, n, post, hdec, hgood, hnd, -, hv⟩ :=
      validateLoop_some_first c.namespaces [] e he
    refine ⟨pre, n, post, hdec, hgood, hnd, ?_⟩
    rcases hv with hv | ⟨h1, h2, h3⟩
    · exact Or.inl hv
    · refine Or.inr ⟨h1, ?_, h3⟩
      rcases h2 with h2 | h2
      · exact h2
      · simp at h2

/-- Claim C4: `channelOpts` resolves the empty name to the embedded
default options with `found = true` unconditionally; a non-empty name is
looked up by linear scan for an exact match, yielding the first matching
entry's options with `found = true`, and the zero-value options with
`found = false` when no declared namespace carries the name. -/
theorem claim4_resolution {O : Type} [Inhabited O] (c : Config O) (name : GoString) :
    c.channelOpts [] = (c.options, true) ∧
    (name ≠ [] → (∀ n ∈ c.namespaces, n.name ≠ name) →
      c.channelOpts name = (default, false)) ∧
    (name ≠ [] → ∀ n, c.namespaces.find? (fun m => m.name == name) = some n →
      c.channelOpts name = (n.options, true)) := by
  refine ⟨by simp [Config.channelOpts], fun hne hall => ?_, fun hne n hfind => ?_⟩
  · rw [Config.channelOpts, if_neg hne, channelOptsLoop_find]
    have : c.namespaces.find? (fun m => m.name == name) = none := by
      rw [List.find?_eq_none]
      intro m hm
      simp only [beq_iff_eq]
      exact hall m hm
    rw [this]
  · rw [Config.channelOpts, if_neg hne, channelOptsLoop_find, hfind]

/-- Claim C8: a configuration accepted by `Validate` declares no
namespace with the empty name, the pattern demanding at least two
characters, so the empty key can only resolve to the default options. -/
theorem claim8_validated_names_nonempty {O : Type} (c : Config O)
    (h : c.Validate = none) : ∀ n ∈ c.namespaces, n.name ≠ [] := by
  intro n hn hcon
  have hgood := ((validateLoop_none_iff c.namespaces []).mp h).1 n hn
  rw [hcon] at hgood
  simp [matchNamePattern] at hgood

/-- Claim C8 witness: a concrete validated configuration, every declared
name non-empty. -/
theorem claim8_witness :
    (Config.mk 0 [Namespace.mk [97, 98] 1] : Config Nat).Validate = none ∧
    ∀ n ∈ (Config.mk 0 [Namespace.mk [97, 98] 1] : Config Nat).namespaces, n.name ≠ [] :=
  ⟨rfl, claim8_validated_names_nonempty _ rfl⟩

/-- Claim C10: on a namespace list with repeated names, `channelOpts`
returns the options of the first matching entry in list order, with
`found = true`. -/
theorem claim10_first_match_wins {O : Type} [Inhabited O] (c : Config O) (name : GoString)
    (pre : List (Namespace O)) (n : Namespace O) (post : List (Namespace O))
    (hname : name ≠ []) (hdec : c.namespaces = pre ++ n :: post)
    (hmatch : n.name = name) (hpre : ∀ m ∈ pre, m.name ≠ name) :
    c.channelOpts name = (n.options, true) := by
  rw [Config.channelOpts, if_neg hname, hdec]
  exact channelOptsLoop_append name pre n post hmatch hpre

/-- Claim C10 witness: a registry declaring the name `news` twice with
distinct options resolves it to the first entry's options. -/
theorem claim10_witness :
    (Config.mk 0 [Namespace.mk [110, 101, 119, 115] 1, Namespace.mk [110, 101, 119, 115] 2] :
      Config Nat).channelOpts [110, 101, 119, 115] = (1, true) :=
  claim10_first_match_wins _ [110, 101, 119, 115] [] ⟨[110, 101, 119, 115], 1⟩
    [⟨[110, 101, 119, 115], 2⟩] (by decide) rfl rfl (by simp)

end Centrifugo
